import Mathlib

/-!
Shallow embedding of the lograptor matching and aggregation pipeline:
the application rule engine (`lograptor/application.py`, classes `AppRule`
and `AppLogParser`) and the matcher engine (`lograptor/matcher.py`,
`create_matcher_engine` / `process_logfile`).

Modelling conventions:
- Python regular expressions are embedded as oracles: a `Regexp` carries the
  ordered list of named groups of the pattern (`groupindex`, in order of first
  occurrence, as Python dicts preserve definition order) and a `search`
  function returning, on success, the mapping from group name to the captured
  value (`none` when the group did not participate in the match).
- Result keys are tuples of captured values, so lists of `Option String`.
- Result counts are `Int` (Python integers).
- Fallible operations (Python statements that can raise) return `Except`.
- The anonymization collaborator (`name_cache`) is out of scope and modelled
  as disabled, as in a run without `--anonymize`; the corresponding
  `map_dict` component of a process outcome is therefore always `none`.
-/

/-- A regex group capture: `none` models a Python `None` value. -/
abbrev Capture := Option String

/-- A result-table key: the tuple of captured values, host first. -/
abbrev ResultKey := List Capture

/-- The per-rule result table: Python dict from key tuple to event count. -/
abbrev Results := List (ResultKey × Int)

/-- Dict lookup `results[idx]`, returning `none` where Python raises KeyError. -/
def lookupRes : Results → ResultKey → Option Int
  | [], _ => none
  | (k, v) :: rest, idx => if k = idx then some v else lookupRes rest idx

/-- The update performed by `AppRule.add_result`: increment the count of an
existing key or insert the key with count 1 (application.py lines 118-121). -/
def bumpRes (rs : Results) (idx : ResultKey) : Results :=
  if (lookupRes rs idx).isSome then
    rs.map (fun p => if p.1 = idx then (p.1, p.2 + 1) else p)
  else
    rs ++ [(idx, 1)]

/-- The update `self.results[idx] += k` of `AppRule.increase_last`
(application.py line 130), on a key known to be present. -/
def addRes (rs : Results) (idx : ResultKey) (k : Int) : Results :=
  rs.map (fun p => if p.1 = idx then (p.1, p.2 + k) else p)

/-- A compiled pattern (`re.compile` object), embedded as an oracle.
`groupindex` lists the named groups in order of first occurrence in the
pattern; `search msg` returns the group-capture map of the leftmost match,
or `none` when the pattern does not match. -/
structure Regexp where
  pattern : String
  groupindex : List String
  search : String → Option (String → Capture)

/-- The `AppRule` object of application.py. `last_idx` is `self._last_idx`. -/
structure AppRule where
  name : String
  regexp : Regexp
  filter_keys : List String
  full_match : Bool
  used_by_report : Bool
  results : Results
  key_gids : List String
  last_idx : Option ResultKey

/-- The `AppRule.__init__` constructor (application.py lines 72-103).
An empty pattern or an empty key-gid set raises `LogRaptorConfigError`,
modelled as `Except.error`. `filter_keys` defaults to the empty list and
`full_match` records whether a filtering-keys argument was passed. -/
def mkAppRule (name : String) (regexp : Regexp) (filter_keys : Option (List String)) :
    Except String AppRule :=
  if regexp.pattern = "" then
    .error "empty rule"
  else
    if ("host" :: regexp.groupindex.filter (fun g => g != "host")) = ([] : List String) then
      .error "rule gids set empty!"
    else
      .ok { name := name
            regexp := regexp
            filter_keys := filter_keys.getD []
            full_match := filter_keys.isSome
            used_by_report := false
            results := []
            key_gids := "host" :: regexp.groupindex.filter (fun g => g != "host")
            last_idx := none }

/-- `AppRule.add_result` (application.py lines 108-122): build the key tuple
host-first per `key_gids`, bump the result table and remember the key. -/
def AppRule.add_result (r : AppRule) (values : String → Capture) : AppRule :=
  { r with
    results := bumpRes r.results (values "host" :: (r.key_gids.drop 1).map values)
    last_idx := some (values "host" :: (r.key_gids.drop 1).map values) }

/-- `AppRule.increase_last` (application.py lines 124-130): add `k` to the
last recorded result; a no-op when no result was recorded. A missing key
would raise KeyError, modelled as `Except.error` (unreachable in the
pipeline, since `add_result` always inserts the key it records). -/
def AppRule.increase_last (r : AppRule) (k : Int) : Except String AppRule :=
  match r.last_idx with
  | none => .ok r
  | some idx =>
    match lookupRes r.results idx with
    | none => .error "KeyError"
    | some _ => .ok { r with results := addRes r.results idx k }

/-- Index of a gid in `key_gids` (Python `list.index`; the out-of-range
result for a missing gid models the ValueError path, unused by the claims). -/
def idxOfStr : List String → String → Nat
  | [], _ => 0
  | x :: xs, g => if x = g then 0 else idxOfStr xs g + 1

/-- Component access `key[pos]` on a result key. -/
def keyAt (key : ResultKey) (i : Nat) : Capture :=
  (key.get? i).getD none

/-- Python `int(...)` applied to a captured field value. Python raises on a
null or non-numeric capture; those error paths are unused by the claims and
modelled as 0. -/
def pyInt : Capture → Int
  | none => 0
  | some s => (s.toInt?).getD 0

/-- Comparison of captured values, as used by the sort key `x[pos]` of
`top_events`. Strings are compared lexicographically by code point, as in
Python. Python would raise comparing `None` against a string; keys compared
by the claims carry string values, `none` is ordered first. -/
def capLt : Capture → Capture → Bool
  | none, none => false
  | none, some _ => true
  | some _, none => false
  | some a, some b => decide (compare a b = Ordering.lt)

/-- Lexicographic comparison on the pair sort key of the max branch of
`top_events`. -/
def pairLt : Int × Capture → Int × Capture → Bool
  | (i1, c1), (i2, c2) => decide (i1 < i2) || (decide (i1 = i2) && capLt c1 c2)

/-- Stable insertion step: place `a` after every element not greater. -/
def insSorted (lt : α → α → Bool) (a : α) : List α → List α
  | [] => [a]
  | b :: bs => if lt a b then a :: b :: bs else b :: insSorted lt a bs

/-- Stable sort, as Python `sorted` with a key function. -/
def stableSort (lt : α → α → Bool) (l : List α) : List α :=
  l.foldl (fun acc a => insSorted lt a acc) []

/-- One ranking slot of `top_events`: a total and the group values sharing it. -/
abbrev TopEntry := Int × List Capture

/-- The insertion scan of the nested `classify` of `AppRule.top_events`
(application.py lines 183-196): walk the first `num` slots; fill the first
empty slot, append to a slot with an equal total, or insert a new slot in
front of the first smaller total. -/
def classifyIns (tot : Int) (v : Capture) : Nat → List (Option TopEntry) → List (Option TopEntry)
  | 0, tops => tops
  | _ + 1, [] => []
  | _ + 1, none :: rest => some (tot, [v]) :: rest
  | n + 1, some e :: rest =>
    if tot = e.1 then some (e.1, e.2 ++ [v]) :: rest
    else if e.1 < tot then some (tot, [v]) :: some e :: rest
    else some e :: classifyIns tot v n rest

/-- The nested `classify` of `AppRule.top_events`: a `None` running group
value is skipped. -/
def classify (num : Nat) (tot : Int) (value : Capture) (tops : List (Option TopEntry)) :
    List (Option TopEntry) :=
  match value with
  | none => tops
  | some v => classifyIns tot (some v) num tops

/-- The accumulation loop of `AppRule.top_events` (application.py lines
216-226): iterate keys sorted by the group field, accumulate a running total
per distinct group value, classify each completed group, and classify the
final group when the iteration ends. -/
def topLoop (num : Nat) (contrib : ResultKey → Int) (pos : Nat) :
    List ResultKey → Capture → Int → List (Option TopEntry) → List (Option TopEntry)
  | [], value, tot, tops => classify num tot value tops
  | key :: rest, value, tot, tops =>
    if value.isNone || decide (value ≠ keyAt key pos) then
      topLoop num contrib pos rest (keyAt key pos) (contrib key) (classify num tot value tops)
    else
      topLoop num contrib pos rest value (tot + contrib key) tops

/-- Shared tail of `AppRule.top_events` for the accumulated-total ranking:
sort the keys by the group field, run the accumulation loop over slots
initialised to `[None] * num`, truncate to `num` slots and drop empty ones. -/
def topSum (num pos : Nat) (contrib : ResultKey → Int) (keys : List ResultKey) :
    List TopEntry :=
  ((topLoop num contrib pos
      (stableSort (fun a b => capLt (keyAt a pos) (keyAt b pos)) keys)
      none 0 (List.replicate num none)).take num).filterMap id

/-- `AppRule.top_events` (application.py lines 174-229). With a value field
and `usemax`, rank the keys directly by the integer value field, descending,
tie-broken by the group value, truncated to `num`. Otherwise rank distinct
group values by their accumulated total (raw count, or count times the
integer value field). -/
def AppRule.top_events (r : AppRule) (num : Nat) (valfld : Option String) (usemax : Bool)
    (gid : String) : List TopEntry :=
  if r.results.isEmpty then []
  else
    match valfld with
    | some vf =>
      if usemax then
        ((stableSort (fun a b =>
            pairLt (pyInt (keyAt b (idxOfStr r.key_gids vf)), keyAt b (idxOfStr r.key_gids gid))
                   (pyInt (keyAt a (idxOfStr r.key_gids vf)), keyAt a (idxOfStr r.key_gids gid)))
            (r.results.map Prod.fst)).take num).map
          (fun key => (pyInt (keyAt key (idxOfStr r.key_gids vf)),
                       [keyAt key (idxOfStr r.key_gids gid)]))
      else
        topSum num (idxOfStr r.key_gids gid)
          (fun key => (lookupRes r.results key).getD 0 * pyInt (keyAt key (idxOfStr r.key_gids vf)))
          (r.results.map Prod.fst)
    | none =>
      topSum num (idxOfStr r.key_gids gid)
        (fun key => (lookupRes r.results key).getD 0)
        (r.results.map Prod.fst)

/-- The `AppLogParser` object of application.py, restricted to the state the
rule engine reads and writes. `thread` is `self._thread`, `report` the
truthiness of `self._report`, `last_rule` the index of the last matched rule. -/
structure AppLogParser where
  name : String
  thread : Bool
  report : Bool
  rules : List AppRule
  has_filters : Bool
  counter : Int
  unparsed_counter : Int
  last_rule : Option Nat

/-- The `values` dictionary built by `AppLogParser.process` without a name
cache (application.py lines 464-466): `values = {'host': logdata.host}` then
one entry per named group; a group named `host` overwrites the host entry. -/
def valuesOf (groupindex : List String) (g : String → Capture) (host : Capture) :
    String → Capture :=
  fun k => if groupindex.contains k then g k else if k = "host" then host else none

/-- Outcome tuple of `AppLogParser.process`: rule_match, full_match,
app_thread, map_dict (always `none` with the anonymization collaborator
disabled). -/
abbrev ProcOut := Bool × Option Bool × Option String × Option Unit

/-- The rule scan of `AppLogParser.process` (application.py lines 451-483):
find the first rule whose pattern matches the message, apply the
filter-keys rejection, accumulate, and build the outcome tuple. Returns the
outcome, the updated rule list, and the index of the matched rule (`none`
when no rule matched). Note `rule.filter_keys is not None` is always true in
the source, since the constructor stores a list, so the accumulate guard of
the non-thread branch always holds. -/
def scanRules (thread report : Bool) (host : Capture) (msg : String) :
    List AppRule → ProcOut × List AppRule × Option Nat
  | [] => ((false, none, none, none), [], none)
  | rule :: rest =>
    match rule.regexp.search msg with
    | none =>
      ((scanRules thread report host msg rest).1,
       rule :: (scanRules thread report host msg rest).2.1,
       ((scanRules thread report host msg rest).2.2).map (· + 1))
    | some g =>
      if thread && rule.regexp.groupindex.contains "thread" then
        if rule.filter_keys.any (fun k => (valuesOf rule.regexp.groupindex g host k).isNone) then
          ((false, none, none, none), rule :: rest, some 0)
        else
          ((true, some rule.full_match, g "thread", none),
           (if report then rule.add_result (valuesOf rule.regexp.groupindex g host) else rule)
             :: rest,
           some 0)
      else
        if rule.filter_keys.any (fun k => (valuesOf rule.regexp.groupindex g host k).isNone) then
          ((false, none, none, none), rule :: rest, some 0)
        else
          ((true, some rule.full_match, none, none),
           rule.add_result (valuesOf rule.regexp.groupindex g host) :: rest,
           some 0)

/-- `AppLogParser.process` (application.py lines 437-490): run the rule scan,
record the last matched rule, and on a fully unmatched message count the
line as unparsed when the application has no filter rules. -/
def AppLogParser.process (app : AppLogParser) (host : Capture) (msg : String) :
    ProcOut × AppLogParser :=
  match (scanRules app.thread app.report host msg app.rules).2.2 with
  | some i =>
    ((scanRules app.thread app.report host msg app.rules).1,
     { app with
       rules := (scanRules app.thread app.report host msg app.rules).2.1
       last_rule := some i })
  | none =>
    ((scanRules app.thread app.report host msg app.rules).1,
     { app with
       rules := (scanRules app.thread app.report host msg app.rules).2.1
       last_rule := none
       unparsed_counter :=
         if app.has_filters then app.unparsed_counter else app.unparsed_counter + 1 })

/-- `AppLogParser.increase_last` (application.py lines 429-435): delegate to
the last matched rule; a no-op when no rule matched last. -/
def AppLogParser.increase_last (app : AppLogParser) (k : Int) : Except String AppLogParser :=
  match app.last_rule with
  | none => .ok app
  | some i =>
    match app.rules[i]? with
    | none => .ok app
    | some rule =>
      match rule.increase_last k with
      | .error e => .error e
      | .ok rule2 => .ok { app with rules := app.rules.set i rule2 }

/-- Effect of the repeat-continuation branch of `process_logfile` on the
resolved application (matcher.py lines 151-152): `app.increase_last(repeat)`
followed by `app.counter += 1`, with no call into the rule engine. -/
def repeatLineUpdate (app : AppLogParser) (rpt : Int) : Except String AppLogParser :=
  match app.increase_last rpt with
  | .error e => .error e
  | .ok a => .ok { a with counter := a.counter + 1 }

/-- Python comparison of two lists of strings, the sort key
`lambda x: x.filter_keys` used when reordering rules. -/
def listStrLt : List String → List String → Bool
  | [], [] => false
  | [], _ :: _ => true
  | _ :: _, [] => false
  | a :: as, b :: bs =>
    match compare a b with
    | Ordering.lt => true
    | Ordering.gt => false
    | Ordering.eq => listStrLt as bs

/-- Tail of `AppLogParser.__init__` (application.py lines 367-378): compute
`has_filters` from the rules; when the application has filter rules, reorder
the rules with `sorted(key=lambda x: x.filter_keys)`; otherwise set
`full_match` to true on every rule. Returns the final rule list and the
`has_filters` flag. -/
def finalizeRules (rules : List AppRule) : List AppRule × Bool :=
  if rules.any (fun r => !r.filter_keys.isEmpty) then
    (stableSort (fun a b => listStrLt a.filter_keys b.filter_keys) rules, true)
  else
    (rules.map (fun r => { r with full_match := true }), false)

/-- The `MONTHMAP` table of matcher.py lines 38-43: every admitted spelling
of a month, mapped to its canonical two-digit numeral. -/
def MONTHMAP : List (String × String) :=
  [("Jan", "01"), ("Feb", "02"), ("Mar", "03"), ("Apr", "04"), ("May", "05"), ("Jun", "06"),
   ("Jul", "07"), ("Aug", "08"), ("Sep", "09"), ("Oct", "10"), ("Nov", "11"), ("Dec", "12"),
   ("01", "01"), ("02", "02"), ("03", "03"), ("04", "04"), ("05", "05"), ("06", "06"),
   ("07", "07"), ("08", "08"), ("09", "09"), ("10", "10"), ("11", "11"), ("12", "12")]

/-- The year inference of `process_logfile` (matcher.py lines 112-113 and
165): when the event carries no explicit year, use the previous year when
the event month differs from the literal string `"1"` and the file
modification month is January, else the file modification year. -/
def inferYear (file_year file_month : Int) (month : String) (year? : Option Int) : Int :=
  match year? with
  | some y => y
  | none => if month ≠ "1" ∧ file_month = 1 then file_year - 1 else file_year

/-- The effective maximum match count of the matcher engine
(matcher.py line 69): quiet mode forces it to 1. -/
def engineMaxCount (quiet : Bool) (max_count : Option Nat) : Option Nat :=
  if quiet then some 1 else max_count

/-- The `send_selected` flag of the matcher engine (matcher.py line 75):
per-line emission is suppressed in quiet or count mode. -/
def engineSendSelected (quiet count : Bool) : Bool :=
  !(quiet || count)

/-- Python truthiness test `max_count and matching_counter >= max_count`
guarding the early break (matcher.py line 329). -/
def maxCountBreak : Option Nat → Nat → Bool
  | none, _ => false
  | some m, c => if m = 0 then false else decide (m ≤ c)

/-- Running counters of the non-thread dispatch section of
`process_logfile`: the matched-line counter and the number of events sent. -/
structure LoopState where
  matching_counter : Nat
  emitted : Nat

/-- The per-line dispatch and termination logic of `process_logfile` in
non-thread mode (matcher.py lines 317-330). The earlier per-line pipeline
(format detection, time and host and pattern filters, app resolution, rule
matching) is abstracted to a boolean per line: `true` when the line reaches
the dispatch section. A delivered line bumps the matched-line counter, is
sent when `send_selected`, and the scan breaks once the counter reaches the
maximum match count; the unread remainder of the file is returned. -/
def scanLines (max_count : Option Nat) (send_selected : Bool) :
    List Bool → LoopState → LoopState × List Bool
  | [], s => (s, [])
  | matched :: rest, s =>
    if matched then
      if maxCountBreak max_count (s.matching_counter + 1) then
        ({ matching_counter := s.matching_counter + 1
           emitted := if send_selected then s.emitted + 1 else s.emitted }, rest)
      else
        scanLines max_count send_selected rest
          { matching_counter := s.matching_counter + 1
            emitted := if send_selected then s.emitted + 1 else s.emitted }
    else scanLines max_count send_selected rest s

/-- Number of delivered lines in an abstracted line list. -/
def countTrue : List Bool → Nat
  | [] => 0
  | true :: rest => countTrue rest + 1
  | false :: rest => countTrue rest

/-- A pattern with no named groups that matches nothing, for rules whose
regexp is irrelevant to the examined behaviour. -/
def trivialRegexp : Regexp :=
  { pattern := "x", groupindex := [], search := fun _ => none }

/-- Concrete rule for the top-events example: key gids `(host)`, result
table with group values A and B totalling 10 each and C totalling 7. -/
def c6rule : AppRule :=
  { name := "r1", regexp := trivialRegexp, filter_keys := [], full_match := true,
    used_by_report := false,
    results := [([some "A"], 10), ([some "B"], 10), ([some "C"], 7)],
    key_gids := ["host"], last_idx := none }

/-- Concrete pattern with named groups `user` and `pid`, in that order. -/
def rx8 : Regexp :=
  { pattern := "u", groupindex := ["user", "pid"], search := fun _ => none }

/-- The rule built by `mkAppRule` from `rx8` with filtering key `user`. -/
def c8rule : AppRule :=
  { name := "r", regexp := rx8, filter_keys := ["user"], full_match := true,
    used_by_report := false, results := [], key_gids := ["host", "user", "pid"],
    last_idx := none }

/-- Concrete pattern with a single named group `user`. -/
def rxU : Regexp :=
  { pattern := "u", groupindex := ["user"], search := fun _ => none }

/-- The filter rule built by `mkAppRule` from `rxU` with filtering key
`user`: its constructor sets `full_match` to true. -/
def c3filterRule : AppRule :=
  { name := "f", regexp := rxU, filter_keys := ["user"], full_match := true,
    used_by_report := false, results := [], key_gids := ["host", "user"], last_idx := none }

/-- The plain rule built by `mkAppRule` from `trivialRegexp` with no
filtering keys: its constructor sets `full_match` to false. -/
def c3plainRule : AppRule :=
  { name := "p", regexp := trivialRegexp, filter_keys := [], full_match := false,
    used_by_report := false, results := [], key_gids := ["host"], last_idx := none }

/-- Group captures of a match where the `user` group captured nothing. -/
def g1r : String → Capture :=
  fun g => if g = "user" then none else none

/-- Group captures of a match where the `user` group captured `alice`. -/
def g1a : String → Capture :=
  fun g => if g = "user" then some "alice" else none

/-- A pattern with group `user` that matches every message with a null
`user` capture. -/
def rx1r : Regexp :=
  { pattern := "login", groupindex := ["user"], search := fun _ => some g1r }

/-- A pattern with group `user` that matches every message capturing
`alice`. -/
def rx1a : Regexp :=
  { pattern := "login", groupindex := ["user"], search := fun _ => some g1a }

/-- Filter rule over `rx1r`. -/
def rule1r : AppRule :=
  { name := "f", regexp := rx1r, filter_keys := ["user"], full_match := true,
    used_by_report := false, results := [], key_gids := ["host", "user"], last_idx := none }

/-- Filter rule over `rx1a`. -/
def rule1a : AppRule :=
  { name := "f", regexp := rx1a, filter_keys := ["user"], full_match := true,
    used_by_report := false, results := [], key_gids := ["host", "user"], last_idx := none }

/-- Application holding only `rule1r`. -/
def app1r : AppLogParser :=
  { name := "a", thread := false, report := false, rules := [rule1r],
    has_filters := true, counter := 0, unparsed_counter := 0, last_rule := none }

/-- Application holding only `rule1a`. -/
def app1a : AppLogParser :=
  { name := "a", thread := false, report := false, rules := [rule1a],
    has_filters := true, counter := 0, unparsed_counter := 0, last_rule := none }

/-- Group captures of a thread-mode match: `thread` captured `T1`, `user`
captured nothing. -/
def g4 : String → Capture :=
  fun g => if g = "thread" then some "T1" else none

/-- Group captures of a thread-mode match: `thread` captured `T1`, `user`
captured `bob`. -/
def g4a : String → Capture :=
  fun g => if g = "thread" then some "T1" else if g = "user" then some "bob" else none

/-- A pattern with groups `thread` and `user` yielding the captures `g4`. -/
def rx4 : Regexp :=
  { pattern := "t", groupindex := ["thread", "user"], search := fun _ => some g4 }

/-- A pattern with groups `thread` and `user` yielding the captures `g4a`. -/
def rx4a : Regexp :=
  { pattern := "t", groupindex := ["thread", "user"], search := fun _ => some g4a }

/-- Filter rule over `rx4`. -/
def rule4 : AppRule :=
  { name := "f", regexp := rx4, filter_keys := ["user"], full_match := true,
    used_by_report := false, results := [], key_gids := ["host", "thread", "user"],
    last_idx := none }

/-- Filter rule over `rx4a`. -/
def rule4a : AppRule :=
  { name := "f", regexp := rx4a, filter_keys := ["user"], full_match := true,
    used_by_report := false, results := [], key_gids := ["host", "thread", "user"],
    last_idx := none }

/-- Thread-mode application holding only `rule4`. -/
def app4 : AppLogParser :=
  { name := "a", thread := true, report := false, rules := [rule4],
    has_filters := true, counter := 0, unparsed_counter := 0, last_rule := none }

/-- Thread-mode application holding only `rule4a`. -/
def app4a : AppLogParser :=
  { name := "a", thread := true, report := false, rules := [rule4a],
    has_filters := true, counter := 0, unparsed_counter := 0, last_rule := none }

/-- A rule that has accumulated one result key with count 3 and remembers it
as the last recorded key. -/
def rule5 : AppRule :=
  { name := "r", regexp := trivialRegexp, filter_keys := [], full_match := true,
    used_by_report := false,
    results := [([some "h1", some "alice"], 3)],
    key_gids := ["host", "user"], last_idx := some [some "h1", some "alice"] }

/-- Application whose last matched rule is `rule5`. -/
def app5 : AppLogParser :=
  { name := "a", thread := false, report := true, rules := [rule5],
    has_filters := false, counter := 7, unparsed_counter := 0, last_rule := some 0 }

/-- Application with no last matched rule. -/
def app10 : AppLogParser :=
  { name := "a", thread := false, report := true, rules := [c6rule],
    has_filters := false, counter := 0, unparsed_counter := 0, last_rule := none }

theorem process_fst (app : AppLogParser) (host : Capture) (msg : String) :
    (app.process host msg).1 = (scanRules app.thread app.report host msg app.rules).1 := by
  unfold AppLogParser.process
  split <;> rfl

theorem scanRules_fst_append (t rep : Bool) (host : Capture) (msg : String)
    (pre rest : List AppRule) (h : ∀ q ∈ pre, q.regexp.search msg = none) :
    (scanRules t rep host msg (pre ++ rest)).1 = (scanRules t rep host msg rest).1 := by
  induction pre with
  | nil => rfl
  | cons p pre ih =>
    have hp : p.regexp.search msg = none := h p (List.mem_cons_self _ _)
    have ih2 := ih (fun q hq => h q (List.mem_cons_of_mem _ hq))
    simpa [scanRules, hp] using ih2

theorem scanRules_unmatched_li (t rep : Bool) (host : Capture) (msg : String)
    (l : List AppRule) (h : ∀ q ∈ l, q.regexp.search msg = none) :
    (scanRules t rep host msg l).2.2 = none := by
  induction l with
  | nil => rfl
  | cons p l ih =>
    have hp : p.regexp.search msg = none := h p (List.mem_cons_self _ _)
    have ih2 := ih (fun q hq => h q (List.mem_cons_of_mem _ hq))
    simp [scanRules, hp, ih2]

theorem addRes_map_fst (rs : Results) (idx : ResultKey) (k : Int) :
    (addRes rs idx k).map Prod.fst = rs.map Prod.fst := by
  induction rs with
  | nil => rfl
  | cons p rest ih =>
    by_cases h : p.1 = idx <;> simp [addRes, h] at ih ⊢ <;> exact ih

theorem lookupRes_addRes (rs : Results) (idx : ResultKey) (k c : Int)
    (h : lookupRes rs idx = some c) :
    lookupRes (addRes rs idx k) idx = some (c + k) := by
  induction rs with
  | nil => simp [lookupRes] at h
  | cons p rest ih =>
    obtain ⟨k1, v1⟩ := p
    by_cases hp : k1 = idx
    · subst hp
      simp [lookupRes] at h
      subst h
      rw [show addRes ((k1, v1) :: rest) k1 k = (k1, v1 + k) :: addRes rest k1 k from by
        simp [addRes]]
      simp [lookupRes]
    · simp [lookupRes, hp] at h
      rw [show addRes ((k1, v1) :: rest) idx k = (k1, v1) :: addRes rest idx k from by
        simp [addRes, hp]]
      simpa [lookupRes, hp] using ih h

theorem list_set_same (l : List α) (i : Nat) (a : α) (h : l[i]? = some a) :
    l.set i a = l := by
  induction l generalizing i with
  | nil => simp at h
  | cons x xs ih =>
    cases i with
    | zero => simp at h; simp [List.set, h]
    | succ n => simp at h; simp [List.set, ih n h]

theorem mem_insSorted (lt : α → α → Bool) (a x : α) (l : List α) :
    x ∈ insSorted lt a l ↔ x = a ∨ x ∈ l := by
  induction l with
  | nil => simp [insSorted]
  | cons b bs ih =>
    simp only [insSorted]
    split
    · simp [List.mem_cons]
    · rw [List.mem_cons, ih, List.mem_cons]
      tauto

theorem mem_foldl_insSorted (lt : α → α → Bool) (x : α) (l acc : List α) :
    x ∈ List.foldl (fun acc a => insSorted lt a acc) acc l ↔ x ∈ l ∨ x ∈ acc := by
  induction l generalizing acc with
  | nil => simp
  | cons a l ih =>
    simp only [List.foldl_cons]
    rw [ih, mem_insSorted, List.mem_cons]
    tauto

theorem mem_stableSort (lt : α → α → Bool) (x : α) (l : List α) :
    x ∈ stableSort lt l ↔ x ∈ l := by
  unfold stableSort
  rw [mem_foldl_insSorted]
  simp

theorem scanLines_reaches_budget (ss : Bool) (m : Nat) (lines : List Bool) :
    ∀ s : LoopState, s.matching_counter < m → m - s.matching_counter ≤ countTrue lines →
      (scanLines (some m) ss lines s).1.matching_counter = m ∧
      (scanLines (some m) ss lines s).1.emitted =
        (if ss then s.emitted + (m - s.matching_counter) else s.emitted) ∧
      countTrue (scanLines (some m) ss lines s).2 =
        countTrue lines - (m - s.matching_counter) := by
  induction lines with
  | nil =>
    intro s h1 h2
    exfalso
    simp [countTrue] at h2
    omega
  | cons l rest ih =>
    intro s h1 h2
    have hm0 : ¬ m = 0 := by omega
    cases l with
    | false =>
      have h2r : m - s.matching_counter ≤ countTrue rest := by
        simpa [countTrue] using h2
      simpa [scanLines, countTrue] using ih s h1 h2r
    | true =>
      by_cases hb : m ≤ s.matching_counter + 1
      · have hm : m = s.matching_counter + 1 := by omega
        have hbrk : maxCountBreak (some m) (s.matching_counter + 1) = true := by
          simp [maxCountBreak, hm0, hb]
        refine ⟨?_, ?_, ?_⟩
        · simp [scanLines, hbrk]
          omega
        · simp [scanLines, hbrk]
          cases ss <;> simp <;> omega
        · simp [scanLines, hbrk, countTrue]
          omega
      · have h1r : s.matching_counter + 1 < m := by omega
        have h2r : m - (s.matching_counter + 1) ≤ countTrue rest := by
          simp [countTrue] at h2
          omega
        have hbrk : maxCountBreak (some m) (s.matching_counter + 1) = false := by
          simp [maxCountBreak, hm0, hb]
        have ih2 := ih { matching_counter := s.matching_counter + 1,
                         emitted := if ss then s.emitted + 1 else s.emitted } h1r h2r
        obtain ⟨iha, ihb, ihc⟩ := ih2
        have hstep : scanLines (some m) ss (true :: rest) s =
            scanLines (some m) ss rest
              { matching_counter := s.matching_counter + 1,
                emitted := if ss then s.emitted + 1 else s.emitted } := by
          simp [scanLines, hbrk]
        refine ⟨?_, ?_, ?_⟩
        · rw [hstep]
          exact iha
        · rw [hstep, ihb]
          cases ss <;> simp <;> omega
        · rw [hstep, ihc]
          simp [countTrue]
          omega

/-- C1: for every rule with a non-empty filter-keys list that is the first
rule of the application whose compiled pattern matches the event message,
if any field named in the filter keys captured a null value then
AppLogParser.process reports not matched, with the full-match, thread and
map components all absent; if every filter-keys field captured a non-null
value, it reports matched. -/
theorem process_filter_rejection (app : AppLogParser) (host : Capture) (msg : String)
    (pre post : List AppRule) (r : AppRule) (g : String → Capture)
    (hrules : app.rules = pre ++ r :: post)
    (hpre : ∀ q ∈ pre, q.regexp.search msg = none)
    (hmatch : r.regexp.search msg = some g)
    (hfk : r.filter_keys ≠ []) :
    ((∃ k ∈ r.filter_keys, valuesOf r.regexp.groupindex g host k = none) →
      (app.process host msg).1 = (false, none, none, none)) ∧
    ((∀ k ∈ r.filter_keys, valuesOf r.regexp.groupindex g host k ≠ none) →
      (app.process host msg).1.1 = true) := by
  have hfst : (app.process host msg).1 =
      (scanRules app.thread app.report host msg (r :: post)).1 := by
    rw [process_fst, hrules, scanRules_fst_append app.thread app.report host msg pre _ hpre]
  constructor
  · rintro ⟨k, hk, hv⟩
    have hany : (r.filter_keys.any
        fun k => (valuesOf r.regexp.groupindex g host k).isNone) = true := by
      rw [List.any_eq_true]
      exact ⟨k, hk, by simp [hv]⟩
    rw [hfst]
    simp only [scanRules, hmatch, hany]
    split <;> rfl
  · intro hall
    have hany : (r.filter_keys.any
        fun k => (valuesOf r.regexp.groupindex g host k).isNone) = false := by
      rw [Bool.eq_false_iff]
      intro hx
      rw [List.any_eq_true] at hx
      obtain ⟨k, hk, hv⟩ := hx
      exact hall k hk (by simpa using hv)
    rw [hfst]
    simp only [scanRules, hmatch, hany]
    split <;> rfl

/-- C1 witness: a concrete filter rule rejecting a null user capture and a
concrete filter rule accepting a non-null user capture. -/
theorem process_filter_rejection_w :
    (app1r.process (some "h1") "login").1 = (false, none, none, none) ∧
    (app1a.process (some "h1") "login").1.1 = true :=
  ⟨(process_filter_rejection app1r (some "h1") "login" [] [] rule1r g1r rfl
      (by simp) rfl (by decide)).1 ⟨"user", by decide, rfl⟩,
   (process_filter_rejection app1a (some "h1") "login" [] [] rule1a g1a rfl
      (by simp) rfl (by decide)).2 (by decide)⟩

/-- C2: the source infers the year by comparing the event month with the
literal string 1 (matcher.py line 165), which no admitted month spelling
ever equals, so with file modification month January and no explicit event
year even a January event is assigned the previous year: Jan is the admitted
January spelling per MONTHMAP, yet the inferred year for a Jan event under a
January file month is 2019 and not the file year 2020; the December
rollover case behaves as specified and a non-January file month keeps the
file year. -/
theorem inferYear_january_event_bug :
    List.lookup "Jan" MONTHMAP = some "01" ∧
    inferYear 2020 1 "Jan" none = 2019 ∧
    inferYear 2020 1 "Dec" none = 2019 ∧
    inferYear 2020 2 "Jan" none = 2020 := by decide

/-- C3 counterexample: an application owning one filter rule and one plain
rule has filter rules, yet after construction the plain rule (no filter
role) carries full_match false and the filter rule carries full_match true,
the opposite of the claimed polarity. -/
theorem full_match_flag_cx :
    mkAppRule "f" rxU (some ["user"]) = .ok c3filterRule ∧
    mkAppRule "p" trivialRegexp none = .ok c3plainRule ∧
    (finalizeRules [c3filterRule, c3plainRule]).2 = true ∧
    (finalizeRules [c3filterRule, c3plainRule]).1.map
      (fun q => (q.name, q.filter_keys, q.full_match)) =
      [("p", [], false), ("f", ["user"], true)] :=
  ⟨rfl, rfl, rfl, rfl⟩

/-- C3 amended: the full_match flag of a constructed rule is true exactly
when the rule has a filter role (non-empty filter keys) or when the owning
application has no filter rules at all; a plain rule of an application that
does have filter rules keeps full_match false. The hypothesis is the
constructor invariant of mkAppRule for rules whose filter-keys argument, if
present, is non-empty. -/
theorem full_match_flag (rules : List AppRule)
    (hcons : ∀ r ∈ rules, r.full_match = !r.filter_keys.isEmpty) :
    ∀ q ∈ (finalizeRules rules).1,
      q.full_match = (!q.filter_keys.isEmpty || !(finalizeRules rules).2) := by
  intro q hq
  by_cases h : (rules.any fun r => !r.filter_keys.isEmpty) = true
  · have h1 : (finalizeRules rules).1 =
        stableSort (fun a b => listStrLt a.filter_keys b.filter_keys) rules := by
      simp [finalizeRules, h]
    have h2 : (finalizeRules rules).2 = true := by
      simp [finalizeRules, h]
    rw [h1] at hq
    rw [h2, hcons q ((mem_stableSort _ q rules).1 hq)]
    simp
  · have hb : (rules.any fun r => !r.filter_keys.isEmpty) = false :=
      Bool.eq_false_iff.2 h
    have h1 : (finalizeRules rules).1 = rules.map (fun r => { r with full_match := true }) := by
      simp [finalizeRules, hb]
    have h2 : (finalizeRules rules).2 = false := by
      simp [finalizeRules, hb]
    rw [h1] at hq
    rw [h2]
    obtain ⟨p, hp, hpq⟩ := List.mem_map.1 hq
    rw [← hpq]
    simp

/-- C3 witness: the amended statement evaluated on the concrete two-rule
application, at the plain rule. -/
theorem full_match_flag_w :
    c3plainRule.full_match =
      (!c3plainRule.filter_keys.isEmpty || !(finalizeRules [c3filterRule, c3plainRule]).2) :=
  full_match_flag [c3filterRule, c3plainRule] (by decide) c3plainRule
    (List.mem_cons_self _ _)

/-- C4 counterexample: in thread mode, a matching rule whose pattern has a
thread group capturing T1 and a filter key user capturing null makes
process return the no-match tuple with the thread component absent, even
though the thread identifier was extracted from the match. -/
theorem thread_rejection_cx :
    (app4.process (some "h") "t").1 = (false, none, none, none) ∧
    g4 "thread" = some "T1" :=
  ⟨rfl, rfl⟩

/-- C4 amended: in thread mode, for the first matching rule whose pattern
defines a thread capture group, process returns the extracted thread
identifier only on an accepted match; when the filter-rejection path
applies it reports no match with the thread component absent. -/
theorem thread_value_only_on_match (app : AppLogParser) (host : Capture) (msg : String)
    (pre post : List AppRule) (r : AppRule) (g : String → Capture)
    (hrules : app.rules = pre ++ r :: post)
    (hpre : ∀ q ∈ pre, q.regexp.search msg = none)
    (hmatch : r.regexp.search msg = some g)
    (hthread : app.thread = true)
    (hgrp : r.regexp.groupindex.contains "thread" = true) :
    ((∃ k ∈ r.filter_keys, valuesOf r.regexp.groupindex g host k = none) →
      (app.process host msg).1 = (false, none, none, none)) ∧
    ((∀ k ∈ r.filter_keys, valuesOf r.regexp.groupindex g host k ≠ none) →
      (app.process host msg).1 = (true, some r.full_match, g "thread", none)) := by
  have hfst : (app.process host msg).1 =
      (scanRules app.thread app.report host msg (r :: post)).1 := by
    rw [process_fst, hrules, scanRules_fst_append app.thread app.report host msg pre _ hpre]
  have hmem : "thread" ∈ r.regexp.groupindex := by
    simpa using hgrp
  constructor
  · rintro ⟨k, hk, hv⟩
    have hany : (r.filter_keys.any
        fun k => (valuesOf r.regexp.groupindex g host k).isNone) = true := by
      rw [List.any_eq_true]
      exact ⟨k, hk, by simp [hv]⟩
    rw [hfst]
    simp [scanRules, hmatch, hthread, hmem, hany]
  · intro hall
    have hany : (r.filter_keys.any
        fun k => (valuesOf r.regexp.groupindex g host k).isNone) = false := by
      rw [Bool.eq_false_iff]
      intro hx
      rw [List.any_eq_true] at hx
      obtain ⟨k, hk, hv⟩ := hx
      exact hall k hk (by simpa using hv)
    rw [hfst]
    simp [scanRules, hmatch, hthread, hmem, hany]

/-- C4 witness: the amended statement on a concrete accepted thread match. -/
theorem thread_value_only_on_match_w :
    (app4a.process (some "h") "t").1 = (true, some true, some "T1", none) :=
  (thread_value_only_on_match app4a (some "h") "t" [] [] rule4a g4a rfl
    (by simp) rfl rfl (by decide)).2 (by decide)

/-- C5: processing a repeat continuation line with repeat count N after a
line on which a rule matched and recorded a result key with count c raises
that same key to c plus N without creating a new result key and without any
call into the rule engine, and increments the owning application line
counter by one. -/
theorem repeat_line_accumulation (app : AppLogParser) (i : Nat) (rule : AppRule)
    (key : ResultKey) (c N : Int)
    (hlast : app.last_rule = some i)
    (hrule : app.rules[i]? = some rule)
    (hidx : rule.last_idx = some key)
    (hc : lookupRes rule.results key = some c) :
    repeatLineUpdate app N =
      .ok { app with
            rules := app.rules.set i { rule with results := addRes rule.results key N }
            counter := app.counter + 1 } ∧
    (addRes rule.results key N).map Prod.fst = rule.results.map Prod.fst ∧
    lookupRes (addRes rule.results key N) key = some (c + N) := by
  refine ⟨?_, addRes_map_fst _ _ _, lookupRes_addRes _ _ _ _ hc⟩
  simp [repeatLineUpdate, AppLogParser.increase_last, AppRule.increase_last,
    hlast, hrule, hidx, hc]

/-- C5 witness: the repeat update on a concrete application whose last
matched rule recorded the key (h1, alice) with count 3, with repeat 5. -/
theorem repeat_line_accumulation_w :
    repeatLineUpdate app5 5 =
      .ok { app5 with
            rules := app5.rules.set 0 { rule5 with
              results := addRes rule5.results [some "h1", some "alice"] 5 }
            counter := app5.counter + 1 } ∧
    (addRes rule5.results [some "h1", some "alice"] 5).map Prod.fst =
      rule5.results.map Prod.fst ∧
    lookupRes (addRes rule5.results [some "h1", some "alice"] 5)
      [some "h1", some "alice"] = some (3 + 5) :=
  repeat_line_accumulation app5 0 rule5 [some "h1", some "alice"] 3 5 rfl rfl rfl rfl

/-- C6: top_events with two slots ranked by total on the result table with
group values A and B totalling 10 and C totalling 7 returns the slot (10,
[A, B]) followed by (7, [C]): equal totals share one rank slot and the
ranking is truncated to the requested number of slots. -/
theorem top_events_tie_grouping :
    c6rule.top_events 2 none false "host" =
      [(10, [some "A", some "B"]), (7, [some "C"])] := by
  decide

/-- C7: in non-thread mode with a maximum match count m, a file whose
delivered lines number at least m yields exactly m emitted events and m
counted matches, and the scan stops with the remaining delivered lines
unread. -/
theorem max_count_termination (lines : List Bool) (m : Nat)
    (hm : 0 < m) (hc : m ≤ countTrue lines) :
    (scanLines (some m) true lines ⟨0, 0⟩).1.emitted = m ∧
    (scanLines (some m) true lines ⟨0, 0⟩).1.matching_counter = m ∧
    countTrue (scanLines (some m) true lines ⟨0, 0⟩).2 = countTrue lines - m := by
  have h := scanLines_reaches_budget true m lines ⟨0, 0⟩ hm (by simpa using hc)
  exact ⟨by simpa using h.2.1, h.1, by simpa using h.2.2⟩

/-- C7 witness: with maximum match count 2 and five delivered lines,
exactly two events are emitted and three delivered lines remain unread. -/
theorem max_count_termination_w :
    0 < 2 ∧ 2 ≤ countTrue [true, true, true, true, true] ∧
    ((scanLines (some 2) true [true, true, true, true, true] ⟨0, 0⟩).1.emitted = 2 ∧
     (scanLines (some 2) true [true, true, true, true, true] ⟨0, 0⟩).1.matching_counter = 2 ∧
     countTrue (scanLines (some 2) true [true, true, true, true, true] ⟨0, 0⟩).2 =
       countTrue [true, true, true, true, true] - 2) :=
  ⟨by decide, by decide,
   max_count_termination [true, true, true, true, true] 2 (by decide) (by decide)⟩

/-- C9: with the quiet option the matcher engine forces the effective
maximum match count to 1 regardless of the configured value and suppresses
per-line emission, so in non-thread quiet mode the scan stops after the
first delivered line and no events are sent. -/
theorem quiet_mode_single_match (cfg : Option Nat) (cnt : Bool) (lines : List Bool)
    (h : 1 ≤ countTrue lines) :
    engineMaxCount true cfg = some 1 ∧
    engineSendSelected true cnt = false ∧
    (scanLines (engineMaxCount true cfg) (engineSendSelected true cnt) lines ⟨0, 0⟩).1.emitted
      = 0 ∧
    (scanLines (engineMaxCount true cfg) (engineSendSelected true cnt) lines
      ⟨0, 0⟩).1.matching_counter = 1 ∧
    countTrue (scanLines (engineMaxCount true cfg) (engineSendSelected true cnt) lines
      ⟨0, 0⟩).2 = countTrue lines - 1 := by
  have hmc : engineMaxCount true cfg = some 1 := rfl
  have hss : engineSendSelected true cnt = false := rfl
  have h2 := scanLines_reaches_budget false 1 lines ⟨0, 0⟩ Nat.zero_lt_one (by simpa using h)
  rw [hmc, hss]
  exact ⟨rfl, rfl, by simpa using h2.2.1, h2.1, by simpa using h2.2.2⟩

/-- C9 witness: quiet mode with a configured maximum of 5 on a file whose
second and third lines are delivered. -/
theorem quiet_mode_single_match_w :
    1 ≤ countTrue [false, true, true] ∧
    (engineMaxCount true (some 5) = some 1 ∧
     engineSendSelected true false = false ∧
     (scanLines (engineMaxCount true (some 5)) (engineSendSelected true false)
       [false, true, true] ⟨0, 0⟩).1.emitted = 0 ∧
     (scanLines (engineMaxCount true (some 5)) (engineSendSelected true false)
       [false, true, true] ⟨0, 0⟩).1.matching_counter = 1 ∧
     countTrue (scanLines (engineMaxCount true (some 5)) (engineSendSelected true false)
       [false, true, true] ⟨0, 0⟩).2 = countTrue [false, true, true] - 1) :=
  ⟨by decide, quiet_mode_single_match (some 5) false [false, true, true] (by decide)⟩

/-- C8: every rule accepted by the constructor has a non-empty,
deduplicated key-gid list whose first element is host, followed by the
other named groups of the pattern in first-occurrence order; the
constructor rejects an empty key-gid set as a configuration error, so an
accepted rule always satisfies the invariant. -/
theorem key_gids_invariant (name : String) (rx : Regexp) (fk : Option (List String))
    (r : AppRule) (hok : mkAppRule name rx fk = .ok r) (hnd : rx.groupindex.Nodup) :
    r.key_gids ≠ [] ∧ r.key_gids.Nodup ∧ r.key_gids.head? = some "host" ∧
    r.key_gids.tail = rx.groupindex.filter (fun g => g != "host") := by
  unfold mkAppRule at hok
  by_cases hp : rx.pattern = ""
  · simp [hp] at hok
  · simp [hp] at hok
    subst hok
    refine ⟨by simp, ?_, rfl, rfl⟩
    refine List.nodup_cons.2 ⟨?_, hnd.filter _⟩
    simp [List.mem_filter]

/-- C8 witness: the invariant on the concrete rule built from the pattern
with groups user and pid. -/
theorem key_gids_invariant_w :
    c8rule.key_gids ≠ [] ∧ c8rule.key_gids.Nodup ∧
    c8rule.key_gids.head? = some "host" ∧
    c8rule.key_gids.tail = rx8.groupindex.filter (fun g => g != "host") :=
  key_gids_invariant "r" rx8 (some ["user"]) c8rule rfl (by decide)

/-- C10: calling increase_last when the application has no last matched
rule, or when the last matched rule recorded no result key, is a no-op that
raises no error and leaves every result table unchanged; and the last
matched rule reference is cleared by a line on which no rule matched. -/
theorem increase_last_noop (k : Int) (app : AppLogParser) :
    (app.last_rule = none → app.increase_last k = .ok app) ∧
    (∀ i rule, app.last_rule = some i → app.rules[i]? = some rule → rule.last_idx = none →
      app.increase_last k = .ok app) ∧
    (∀ host msg, (∀ q ∈ app.rules, q.regexp.search msg = none) →
      ((app.process host msg).2).last_rule = none) := by
  refine ⟨?_, ?_, ?_⟩
  · intro h
    simp [AppLogParser.increase_last, h]
  · intro i rule h1 h2 h3
    have hset := list_set_same app.rules i rule h2
    simp [AppLogParser.increase_last, AppRule.increase_last, h1, h2, h3, hset]
    rw [← h1]
  · intro host msg hall
    have hli := scanRules_unmatched_li app.thread app.report host msg app.rules hall
    simp [AppLogParser.process, hli]

/-- C10 witness: increase_last on a concrete application with no last
matched rule returns the application unchanged. -/
theorem increase_last_noop_w :
    AppLogParser.increase_last app10 3 = .ok app10 :=
  (increase_last_noop 3 app10).1 rfl
